import Mathlib

/-
  Verification development for the tim2 repository: two Python decoders for
  the PS2 TIM2 texture container.

  src/tim2.py      : legacy single-picture decoder (process_tm2_file)
  src/tim2_eva.py  : chained multi-picture decoder (class TIM2Parser)

  Byte buffers are modelled as List Nat (each entry is one byte of the file).
  Python list indexing that can raise IndexError is modelled with List.get?
  and an Except error value; Python slices (which silently truncate) are
  modelled with List.drop / List.take.  Loops with a fixed iteration count
  (for i in range(n)) are modelled by structural recursion on the remaining
  iteration count (the fuel argument), carrying the loop index separately.
-/

namespace Tim2

abbrev Bytes := List Nat

deriving instance DecidableEq for Except

/-- One RGBA tuple as built by the Python code.  The alpha component is an
integer because the legacy alpha transform min(a*2-1, 255) can produce -1. -/
structure RGBA where
  r : Nat
  g : Nat
  b : Nat
  a : Int
deriving DecidableEq

def rgba0 : RGBA := ⟨0, 0, 0, 0⟩

/-- struct.unpack of a little-endian u16 at offset o, value only (bounds
handled by callers; Python slices of length 2 are guaranteed there). -/
def le16 (d : Bytes) (o : Nat) : Nat :=
  d.getD o 0 + 256 * d.getD (o+1) 0

/-- struct.unpack of a little-endian u32 at offset o, value only. -/
def le32 (d : Bytes) (o : Nat) : Nat :=
  d.getD o 0 + 256 * d.getD (o+1) 0 + 65536 * d.getD (o+2) 0
    + 16777216 * d.getD (o+3) 0

/-- struct.unpack("<H", data[o:o+2]): fails (struct.error) unless the slice
has exactly 2 bytes, i.e. o+2 <= len(data). -/
def readU16 (d : Bytes) (o : Nat) : Option Nat :=
  if o + 2 ≤ d.length then some (le16 d o) else none

/- ================= legacy decoder, src/tim2.py ================= -/

/-- The only exception kind the modelled legacy decoder can raise:
a Python IndexError from indexing a bytes object out of range. -/
inductive PyErr
  | indexError
deriving DecidableEq

/-- tim2.py line 40: a = min(a * 2 - 1, 255), no lower clamp. -/
def alphaLegacy (a : Nat) : Int := min (2 * (a : Int) - 1) 255

/-- tim2_eva.py lines 82..84: a = min(a*2 - 1, 255) then np.clip(a, 0, 255). -/
def alphaEva (a : Nat) : Int := max 0 (min (2 * (a : Int) - 1) 255)

/-- tim2.py lines 33..42: for i in range(cont) read palette_data[4i..4i+3]
and append (r, g, b, min(a*2-1, 255)).  fuel is the number of remaining
iterations, i the current loop index; called with fuel = cont, i = 0. -/
def buildPaletteGo (pd : Bytes) : Nat → Nat → Except PyErr (List RGBA)
  | 0, _ => .ok []
  | fuel+1, i =>
    match pd[4*i]?, pd[4*i+1]?, pd[4*i+2]?, pd[4*i+3]? with
    | some r, some g, some b, some a =>
      match buildPaletteGo pd fuel (i+1) with
      | .ok rest => .ok (⟨r, g, b, alphaLegacy a⟩ :: rest)
      | .error e => .error e
    | _, _, _, _ => .error .indexError

def buildPalette (pd : Bytes) (cont : Nat) : Except PyErr (List RGBA) :=
  buildPaletteGo pd cont 0

/-- tim2.py lines 48..53: one 32-entry major group is re-concatenated as
subgroup1 ++ subgroup3 ++ subgroup2 ++ subgroup4 (slices [0:8], [16:24],
[8:16], [24:32]). -/
def reorderGroup {α : Type} (g : List α) : List α :=
  g.take 8 ++ ((g.drop 16).take 8) ++ ((g.drop 8).take 8) ++ ((g.drop 24).take 8)

/-- tim2.py lines 45..54: for major_group_start in range(0, 256, 32), slice
p[start:start+32], reorder the group, and extend the result. -/
def reorder256 {α : Type} (p : List α) : List α :=
  ((List.range 8).map (fun gi => reorderGroup ((p.drop (32*gi)).take 32))).flatten

/-- tim2.py lines 62..67: for i in range(pixel_data_size), break when
i == width*height, else append palette[pixels[i]].  fuel = remaining
iterations of range(pixel_data_size); called with fuel = pds, i = 0. -/
def decode8Go (pixels : Bytes) (palette : List RGBA) (limit : Nat) :
    Nat → Nat → Except PyErr (List RGBA)
  | 0, _ => .ok []
  | fuel+1, i =>
    if i = limit then .ok []
    else
      match pixels[i]? with
      | none => .error .indexError
      | some c =>
        match palette[c]? with
        | none => .error .indexError
        | some col =>
          match decode8Go pixels palette limit fuel (i+1) with
          | .ok rest => .ok (col :: rest)
          | .error e => .error e

def decode8 (pixels : Bytes) (palette : List RGBA) (pds limit : Nat) :
    Except PyErr (List RGBA) :=
  decode8Go pixels palette limit pds 0

/-- tim2.py lines 68..74: for i in range(pixel_data_size), break when
i == width*height // 2, else append palette[b and 0xF] then
palette[(b shifted right by 4) and 0xF]. -/
def decode4Go (pixels : Bytes) (palette : List RGBA) (limit : Nat) :
    Nat → Nat → Except PyErr (List RGBA)
  | 0, _ => .ok []
  | fuel+1, i =>
    if i = limit then .ok []
    else
      match pixels[i]? with
      | none => .error .indexError
      | some c =>
        match palette[c &&& 0xF]?, palette[(c >>> 4) &&& 0xF]? with
        | some lo, some hi =>
          match decode4Go pixels palette limit fuel (i+1) with
          | .ok rest => .ok (lo :: hi :: rest)
          | .error e => .error e
        | _, _ => .error .indexError

def decode4 (pixels : Bytes) (palette : List RGBA) (pds limit : Nat) :
    Except PyErr (List RGBA) :=
  decode4Go pixels palette limit pds 0

/-- tim2.py lines 76..78: for i in range(0, pixel_data_size, 4) append
(pixels[i], pixels[i+1], pixels[i+2], min(pixels[i+3]*2 - 1, 255)).
The loop advances i by 4 while i < pds; fuel = pds is an upper bound on
the iteration count, so the fuel pattern never cuts the loop short. -/
def decode32Go (pixels : Bytes) (pds : Nat) : Nat → Nat → Except PyErr (List RGBA)
  | 0, _ => .ok []
  | fuel+1, i =>
    if i < pds then
      match pixels[i]?, pixels[i+1]?, pixels[i+2]?, pixels[i+3]? with
      | some r, some g, some b, some a =>
        match decode32Go pixels pds fuel (i+4) with
        | .ok rest => .ok (⟨r, g, b, alphaLegacy a⟩ :: rest)
        | .error e => .error e
      | _, _, _, _ => .error .indexError
    else .ok []

def decode32 (pixels : Bytes) (pds : Nat) : Except PyErr (List RGBA) :=
  decode32Go pixels pds pds 0

/-- The RGBA raster produced by the legacy decoder for one file. -/
structure LegacyImage where
  width : Nat
  height : Nat
  pixels : List RGBA
deriving DecidableEq

/-- Outcome of process_tm2_file when no exception escapes: either the early
return for a file shorter than 0x40 bytes, or a written width x height PNG. -/
inductive LegacyOutcome
  | tooSmall
  | written (img : LegacyImage)
deriving DecidableEq

/-- PIL Image.new("RGBA", (w, h)) starts all pixels at (0,0,0,0);
img.putdata(l) fills pixels row-major from l, leaving the rest at the
initial value, and at most w*h entries are used. -/
def finalPixels (w h : Nat) (imgData : List RGBA) : List RGBA :=
  (List.range (w*h)).map (fun k => imgData.getD k rgba0)

/-- tim2.py line 28: palette_data = data[0x40 + pixel_data_size:]. -/
def legacyPaletteData (d : Bytes) : Bytes := d.drop (0x40 + le32 d 0x18)

/-- tim2.py line 27: pixels = data[0x40 : 0x40 + pixel_data_size]. -/
def legacyPixels (d : Bytes) : Bytes := (d.drop 0x40).take (le32 d 0x18)

/-- tim2.py lines 32..56: build the raw palette, then reorder it only when
cont == 256; other counts keep the original order. -/
def legacyPalette (d : Bytes) : Except PyErr (List RGBA) :=
  match buildPalette (legacyPaletteData d) (le16 d 0x1E) with
  | .ok orig => .ok (if le16 d 0x1E = 256 then reorder256 orig else orig)
  | .error e => .error e

/-- process_tm2_file of src/tim2.py with the file I/O stripped: takes the
byte buffer, returns the written image, the too-small early return, or the
Python exception that escapes the function. -/
def processTm2 (d : Bytes) : Except PyErr LegacyOutcome :=
  if d.length < 0x40 then .ok .tooSmall
  else
    let width := le16 d 0x24
    let height := le16 d 0x26
    let pds := le32 d 0x18
    let pixels := legacyPixels d
    let cont := le16 d 0x1E
    match legacyPalette d with
    | .error e => .error e
    | .ok palette =>
      let imgData :=
        if cont = 256 then decode8 pixels palette pds (width*height)
        else if cont = 16 then decode4 pixels palette pds (width*height / 2)
        else if cont = 0 then decode32 pixels pds
        else .ok []
      match imgData with
      | .error e => .error e
      | .ok l => .ok (.written ⟨width, height, finalPixels width height l⟩)

/- ================= chained decoder, src/tim2_eva.py ================= -/

/-- Exceptions of the chained container parser: the ValueError raised on a
wrong magic, and struct.error when a header slice is too short. -/
inductive ChainErr
  | badMagic
  | structError
deriving DecidableEq

def magicBytes : Bytes := [0x54, 0x49, 0x4D, 0x32]

/-- bytes.decode("ascii", errors="ignore"): non-ASCII bytes are dropped. -/
def asciiIgnore (bs : Bytes) : Bytes := bs.filter (fun b => b < 128)

/-- tim2_eva.py lines 18..19: data[0:4].decode(ascii, ignore) == "TIM2". -/
def magicOK (d : Bytes) : Bool := asciiIgnore (d.take 4) == magicBytes

structure ContainerHeader where
  version : Nat
  picture_count : Nat
  total_width : Nat
  total_height : Nat
deriving DecidableEq

/-- TIM2Parser._parse_header: magic check first (ValueError on mismatch),
then four u16 fields at 0x04, 0x06, 0x08, 0x0A (struct.error if short). -/
def parseHeader (d : Bytes) : Except ChainErr ContainerHeader :=
  if magicOK d then
    match readU16 d 0x04, readU16 d 0x06, readU16 d 0x08, readU16 d 0x0A with
    | some v, some pc, some tw, some th => .ok ⟨v, pc, tw, th⟩
    | _, _, _, _ => .error .structError
  else .error .badMagic

structure PictureHeader where
  total_size : Nat
  palette_size : Nat
  image_size_b : Nat
  header_size : Nat
  color_count : Nat
  format : Nat
  mipmap_count : Nat
  clut_format : Nat
  bpp : Nat
  width : Nat
  height : Nat
  image_offset : Nat
  palette_offset : Nat
deriving DecidableEq

/-- TIM2Parser._parse_picture_header_at: only invoked by
_find_picture_headers under offset + 0x28 <= len(data), so every read is
in bounds; "struct.unpack(...) or 0x80" maps 0 to 0x80. -/
def parsePictureHeaderAt (d : Bytes) (o : Nat) : PictureHeader :=
  let total_size := le32 d o
  let palette_size := le32 d (o+0x04)
  let image_size_b := le32 d (o+0x08)
  let hsRaw := le16 d (o+0x0C)
  let header_size := if hsRaw = 0 then 0x80 else hsRaw
  let color_count := le16 d (o+0x0E)
  let format := d.getD (o+0x10) 0
  let mipmap_count := d.getD (o+0x11) 0
  let clut_format := d.getD (o+0x12) 0
  let bpp := d.getD (o+0x13) 0
  let width := le16 d (o+0x14)
  let height := le16 d (o+0x16)
  ⟨total_size, palette_size, image_size_b, header_size, color_count, format,
    mipmap_count, clut_format, bpp, width, height,
    o + header_size, o + header_size + image_size_b⟩

/-- TIM2Parser._find_picture_headers loop body: for _ in range(count),
break when offset + 0x28 > len(data), else parse at offset and advance
offset by the total_size field of the header just parsed. -/
def findPictureHeadersGo (d : Bytes) : Nat → Nat → List (Nat × PictureHeader)
  | 0, _ => []
  | n+1, offset =>
    if offset + 0x28 > d.length then []
    else
      let h := parsePictureHeaderAt d offset
      (offset, h) :: findPictureHeadersGo d n (offset + h.total_size)

/-- TIM2Parser._find_picture_headers: picture blocks start at 0x80. -/
def findPictureHeaders (d : Bytes) (count : Nat) : List (Nat × PictureHeader) :=
  findPictureHeadersGo d count 0x80

/-- One decoded picture of the chained decoder, row-major RGBA pixels. -/
structure EvaImage where
  width : Nat
  height : Nat
  pixels : List RGBA
deriving DecidableEq

/-- Pixel k of the numpy view: bytes 4k..4k+3 of the pixel buffer, with the
alpha channel rewritten to min(a*2-1, 255) clipped to [0, 255]. -/
def directPixel (buf : Bytes) (k : Nat) : RGBA :=
  ⟨buf.getD (4*k) 0, buf.getD (4*k+1) 0, buf.getD (4*k+2) 0,
    alphaEva (buf.getD (4*k+3) 0)⟩

/-- TIM2Parser.extract_image: out-of-range index gives None; formats other
than 0x00/0x03 give None; a pixel range past the buffer end gives None;
otherwise the w*h pixels are decoded directly from the buffer slice. -/
def extractImage (d : Bytes) (headers : List (Nat × PictureHeader))
    (index : Nat) : Option EvaImage :=
  match headers[index]? with
  | none => none
  | some (_, h) =>
    if h.format = 0x00 ∨ h.format = 0x03 then
      let pixelBytes := h.width * h.height * 4
      if h.image_offset + pixelBytes > d.length then none
      else
        let buf := (d.drop h.image_offset).take pixelBytes
        some ⟨h.width, h.height, (List.range (h.width * h.height)).map (directPixel buf)⟩
    else none

/-- TIM2Parser.extract_all_images: one extract_image call per header slot. -/
def extractAllImages (d : Bytes) (headers : List (Nat × PictureHeader)) :
    List (Option EvaImage) :=
  (List.range headers.length).map (extractImage d headers)

/- ========== column compositor, tim2_eva.py lines 96..205 ========== -/

/-- can_partition of _infer_column_height: running accumulator over the
height list, reset to 0 exactly on reaching H, fail if it ever exceeds H,
succeed only when it ends at 0. -/
def canPartitionGo (H : Nat) : List Nat → Nat → Bool
  | [], acc => acc == 0
  | h :: rest, acc =>
    if acc + h == H then canPartitionGo H rest 0
    else if acc + h > H then false
    else canPartitionGo H rest (acc + h)

def canPartition (heights : List Nat) (H : Nat) : Bool :=
  canPartitionGo H heights 0

/-- Running sums of the given heights (s accumulates). -/
def prefixSumsGo : List Nat → Nat → List Nat
  | [], _ => []
  | h :: t, s => (s + h) :: prefixSumsGo t (s + h)

/-- Candidate dedup loop of _infer_column_height: keep v when v > 0 and v
was not seen before, preserving order. -/
def candDedupGo : List Nat → List Nat → List Nat
  | [], _ => []
  | v :: t, seen =>
    if v > 0 ∧ v ∉ seen then v :: candDedupGo t (v :: seen)
    else candDedupGo t seen

def typicalHeights : List Nat := [448, 480, 512, 384, 320, 256]

/-- heights = [im.height for im in images if im is not None]. -/
def imageHeights (images : List (Option EvaImage)) : List Nat :=
  (images.filterMap id).map (fun im => im.height)

/-- TIM2Parser._infer_column_height: 0 for no decoded images, else the
first candidate (typical values, then running sums of the first up to 6
heights, deduplicated) that partitions the heights; else the total sum. -/
def inferColumnHeight (images : List (Option EvaImage)) : Nat :=
  let heights := imageHeights images
  if heights = [] then 0
  else
    let sums := prefixSumsGo (heights.take 6) 0
    let cand := candDedupGo (typicalHeights ++ sums) []
    match cand.find? (fun H => canPartition heights H) with
    | some H => H
    | none => heights.sum

structure ComposeState where
  positions : List (Nat × Nat)
  colWidths : List Nat
  x : Nat
  colY : Nat
  colW : Nat
deriving DecidableEq

/-- Closing a column: record its width, advance x, reset colY and colW. -/
def closeColumn (st : ComposeState) : ComposeState :=
  ⟨st.positions, st.colWidths ++ [st.colW], st.x + st.colW, 0, 0⟩

/-- Loop body of compose_columns (tim2_eva.py lines 157..176): skip absent
images; close the column first when the image does not fit; place at
(x, colY); close again when the column is exactly full. -/
def placeImage (H : Nat) (st : ComposeState) (imo : Option EvaImage) :
    ComposeState :=
  match imo with
  | none => st
  | some im =>
    let st1 := if st.colY > 0 ∧ st.colY + im.height > H then closeColumn st else st
    let st2 : ComposeState :=
      ⟨st1.positions ++ [(st1.x, st1.colY)], st1.colWidths, st1.x,
        st1.colY + im.height, max st1.colW im.width⟩
    if st2.colY = H then closeColumn st2 else st2

/-- Column height choice: declared total height when nonzero, else inferred. -/
def colTargetH (hdr : ContainerHeader) (images : List (Option EvaImage)) : Nat :=
  if hdr.total_height > 0 then hdr.total_height else inferColumnHeight images

/-- First pass of compose_columns plus the trailing close
(lines 150..181 of tim2_eva.py). -/
def firstPass (H : Nat) (images : List (Option EvaImage)) : ComposeState :=
  let st := images.foldl (placeImage H) ⟨[], [], 0, 0, 0⟩
  if st.colY > 0 ∨ (st.colW > 0 ∧ st.colWidths = []) then closeColumn st else st

/-- The placement list computed by compose_columns. -/
def composePositions (hdr : ContainerHeader) (images : List (Option EvaImage)) :
    List (Nat × Nat) :=
  (firstPass (colTargetH hdr images) images).positions

/-- The ValueError raised by max() over an empty generator. -/
inductive ComposeErr
  | emptyMax
deriving DecidableEq

/-- The composed canvas: its size and the paste operations applied to the
initially transparent (all-zero RGBA) canvas. -/
structure Canvas where
  width : Nat
  height : Nat
  pastes : List (EvaImage × Nat × Nat)
deriving DecidableEq

/-- zip(images, positions) with None entries skipped after pairing: a None
entry still consumes one position from the zip. -/
def zipPastes : List (Option EvaImage) → List (Nat × Nat) →
    List (EvaImage × Nat × Nat)
  | imo :: ims, p :: ps =>
    match imo with
    | none => zipPastes ims ps
    | some im => (im, p.1, p.2) :: zipPastes ims ps
  | _, _ => []

/-- TIM2Parser.compose_columns, lines 136..205: resolve the column height,
run the placement pass, resolve the canvas size (max() over an empty
generator raises), and paste. -/
def composeColumns (hdr : ContainerHeader) (images : List (Option EvaImage)) :
    Except ComposeErr Canvas :=
  let H := colTargetH hdr images
  let st := firstPass H images
  let computedW := st.colWidths.sum
  if hdr.total_width > 0 ∧ hdr.total_height > 0 then
    .ok ⟨hdr.total_width, hdr.total_height, zipPastes images st.positions⟩
  else
    let canvasW :=
      if computedW > 0 then some computedW
      else
        match (images.filterMap id).map (fun im => im.width) with
        | [] => none
        | w :: ws => some (ws.foldl max w)
    match canvasW with
    | none => .error .emptyMax
    | some cw => .ok ⟨cw, H, zipPastes images st.positions⟩

/-- TIM2Parser.__init__ minus the file read: parse the container header
(raising on a bad magic), then collect the picture headers.  The magic
failure happens before any picture header is read. -/
def parseTIM2 (d : Bytes) :
    Except ChainErr (ContainerHeader × List (Nat × PictureHeader)) :=
  match parseHeader d with
  | .error e => .error e
  | .ok h => .ok (h, findPictureHeaders d h.picture_count)

/-- Spec-side description of the legacy 256-entry palette reorder, written
from the words of the specification: partition into eight groups of 32;
within each group exchange the middle two 8-entry sub-groups, keeping each
sub-group internally in order; entry k of the reordered palette is entry
swizzleIndex k of the original. -/
def swizzleIndex (k : Nat) : Nat :=
  let g := k / 32
  let j := k % 32
  32 * g + (if j < 8 then j else if j < 16 then j + 8
            else if j < 24 then j - 8 else j)

/-- The offset at which _find_picture_headers would parse the next header
after consuming the given list, starting from the given offset. -/
def chainNext : Nat → List (Nat × PictureHeader) → Nat
  | o, [] => o
  | _, e :: t => chainNext (e.1 + e.2.total_size) t

/- ============ concrete data for witnesses and counterexamples ============ -/

/-- Three decoded pictures of height 100 and widths 50, 60, 70. -/
def c1imgs : List (Option EvaImage) :=
  [some ⟨50, 100, []⟩, some ⟨60, 100, []⟩, some ⟨70, 100, []⟩]

/-- A chained container header declaring three pictures and no canvas size. -/
def c1hdr : ContainerHeader := ⟨1, 3, 0, 0⟩

/-- A 0x40-byte legacy file whose palette entry count field (offset 0x1E)
is 16 while zero palette bytes follow the (empty) pixel data. -/
def c3buf : Bytes := List.replicate 30 0 ++ [16, 0] ++ List.replicate 32 0

/-- A 16-entry palette of distinct markers P0..P15 with Pn = (n,0,0,0). -/
def demoPal16 : List RGBA := (List.range 16).map (fun n => ⟨n, 0, 0, 0⟩)

/-- A 256-entry palette of distinct markers. -/
def demoPal256 : List RGBA := (List.range 256).map (fun n => ⟨n, 0, 0, 0⟩)

/-- A legacy header buffer with palette entry count 0 (not 256). -/
def c4legacyBuf : Bytes := List.replicate 0x20 0

/-- A hand-built chained picture header: format 0x00, 1 x 1 pixels read
from offset 0 of the buffer. -/
def c4hdr : PictureHeader := ⟨0x28, 0, 0, 0x80, 0, 0, 0, 0, 0, 1, 1, 0, 4⟩

/-- The image the chained decoder extracts from [1,2,3,4] under c4hdr:
bytes taken verbatim, alpha 4 corrected to min(4*2-1,255) = 7. -/
def c4img : EvaImage := ⟨1, 1, [⟨1, 2, 3, 7⟩]⟩

/-- A picture header with an unsupported format byte 0x05. -/
def c5hdrBadFmt : PictureHeader := ⟨0x28, 0, 0, 0x80, 0, 5, 0, 0, 0, 1, 1, 0, 0⟩

/-- A picture header whose 100 x 100 pixel range overflows a tiny buffer. -/
def c5hdrOverflow : PictureHeader := ⟨0x28, 0, 0, 0x80, 0, 0, 0, 0, 0, 100, 100, 0, 0⟩

def c5hdrs : List (Nat × PictureHeader) := [(0, c5hdrBadFmt), (1, c5hdrOverflow)]

def c5buf : Bytes := [1, 2, 3, 4]

/-- A chained container: magic absent is irrelevant here; 0xD0 bytes, two
0x28-sized picture blocks at 0x80 and 0xA8, a third header does not fit. -/
def c6buf : Bytes :=
  List.replicate 0x80 0 ++ ([0x28, 0, 0, 0] ++ List.replicate 0x24 0)
    ++ ([0x28, 0, 0, 0] ++ List.replicate 0x24 0)

/-- A 0x48-byte legacy file: palette count 2 (unsupported), width 1,
height 1, pixel data size 0, 8 palette bytes present. -/
def c9buf : Bytes :=
  List.replicate 30 0 ++ [2, 0] ++ List.replicate 4 0 ++ [1, 0] ++ [1, 0]
    ++ List.replicate 24 0 ++ List.replicate 8 0

/- ======================== theorems ======================== -/

/-- C2 counterexample: the claim says the alpha correction is clamped below
at 0 in BOTH decoders, with correct(0) = 0.  In the legacy decoder
(tim2.py) there is no lower clamp: the alpha computed for input byte 0 is
-1, not 0. -/
theorem claim2_counterexample :
    alphaLegacy 0 = -1 ∧ alphaEva 0 = 0 ∧ ((-1 : Int) = 0 → False) := by
  refine ⟨by decide, by decide, by decide⟩

/-- C2 amended: the chained decoder (tim2_eva.py) applies
min(a*2-1, 255) clamped below at 0, with correct(0) = 0,
correct(128) = 255, correct(255) = 255, monotonic non-decreasing; the
legacy decoder (tim2.py) applies the same formula WITHOUT the lower
clamp, so its correct(0) = -1; it is still monotonic and agrees with the
chained version on every input byte of at least 1. -/
theorem claim2_amended (a b c : Nat) (hab : a ≤ b) (hc : 1 ≤ c) :
    alphaEva 0 = 0 ∧ alphaEva 128 = 255 ∧ alphaEva 255 = 255 ∧
    alphaEva a ≤ alphaEva b ∧
    alphaLegacy 0 = -1 ∧ alphaLegacy a ≤ alphaLegacy b ∧
    alphaLegacy c = alphaEva c := by
  unfold alphaEva alphaLegacy
  refine ⟨by decide, by decide, by decide, ?_, by decide, ?_, ?_⟩ <;> omega

/-- Witness for the amended C2 at a = 2, b = 5, c = 3. -/
theorem claim2_amended_witness :
    alphaEva 0 = 0 ∧ alphaEva 128 = 255 ∧ alphaEva 255 = 255 ∧
    alphaEva 2 ≤ alphaEva 5 ∧
    alphaLegacy 0 = -1 ∧ alphaLegacy 2 ≤ alphaLegacy 5 ∧
    alphaLegacy 3 = alphaEva 3 :=
  claim2_amended 2 5 3 (by decide) (by decide)

/-- C1 counterexample: for three decoded images of height 100 (widths 50,
60, 70) and declared total height 0, the code does NOT infer H = 200: the
prefix-sum candidate 100 comes first in the candidate list and partitions
the heights, so H = 100 and every image starts its own column; image1 is
placed at (50, 0), not at (0, 100). -/
theorem claim1_counterexample :
    inferColumnHeight c1imgs = 100 ∧
    (inferColumnHeight c1imgs = 200 → False) ∧
    composePositions c1hdr c1imgs = [(0, 0), (50, 0), (110, 0)] ∧
    (composePositions c1hdr c1imgs = [(0, 0), (0, 100), (60, 0)] → False) := by
  refine ⟨by decide, by decide, by decide, by decide⟩

/-- C1 amended: for a chained container with declared total height 0 and
three successfully decoded images each of height 100 (any widths), the
candidate heights are tested in the order: the fixed list {448, 480, 512,
384, 320, 256} first, then the deduplicated running prefix-sums of the
image heights; none of the fixed values partitions [100,100,100], so the
first prefix-sum 100 wins and H = 100.  Hence each image starts a new
column: image0 at (0,0), image1 at (w0,0), image2 at (w0+w1,0). -/
theorem claim1_amended (w0 w1 w2 : Nat) (p0 p1 p2 : List RGBA) :
    inferColumnHeight [some ⟨w0, 100, p0⟩, some ⟨w1, 100, p1⟩, some ⟨w2, 100, p2⟩] = 100 ∧
    composePositions ⟨1, 3, 0, 0⟩
      [some ⟨w0, 100, p0⟩, some ⟨w1, 100, p1⟩, some ⟨w2, 100, p2⟩]
      = [(0, 0), (w0, 0), (w0 + w1, 0)] ∧
    typicalHeights.all (fun H => !canPartition [100, 100, 100] H) = true ∧
    canPartition [100, 100, 100] 100 = true := by
  refine ⟨rfl, ?_, by decide, by decide⟩
  show (firstPass (colTargetH ⟨1, 3, 0, 0⟩ _) _).positions = _
  have hH : colTargetH ⟨1, 3, 0, 0⟩
      [some ⟨w0, 100, p0⟩, some ⟨w1, 100, p1⟩, some ⟨w2, 100, p2⟩] = 100 := rfl
  rw [hH]
  simp [firstPass, placeImage, closeColumn]

/-- Folding the placement step over a list of absent images changes nothing. -/
theorem foldl_placeImage_none (H : Nat) :
    ∀ (l : List (Option EvaImage)) (st : ComposeState),
      (∀ x ∈ l, x = none) → l.foldl (placeImage H) st = st := by
  intro l
  induction l with
  | nil => intro st _; rfl
  | cons a t ih =>
    intro st h
    have ha : a = none := h a (by simp)
    subst ha
    exact ih st (fun x hx => h x (by simp [hx]))

/-- zip with an empty position list yields no pastes. -/
theorem zipPastes_nil (l : List (Option EvaImage)) : zipPastes l [] = [] := by
  cases l <;> rfl

/-- When every image is absent, the placement pass is a no-op. -/
theorem firstPass_all_none (H : Nat) (l : List (Option EvaImage))
    (h : ∀ x ∈ l, x = none) : firstPass H l = ⟨[], [], 0, 0, 0⟩ := by
  unfold firstPass
  rw [foldl_placeImage_none H l _ h]
  rfl

/-- C10: when every picture slot is absent (or there are no slots), the
compositor raises the ValueError of max() over an empty sequence as soon
as either declared dimension is zero, so the whole file fails; when both
declared dimensions are nonzero it returns the declared-size canvas with
no pastes, i.e. fully transparent. -/
theorem claim10 (v pc tw th v2 pc2 tw2 th2 : Nat)
    (imgs imgs2 : List (Option EvaImage))
    (habs : imgs.filterMap id = []) (habs2 : imgs2.filterMap id = [])
    (hz : tw = 0 ∨ th = 0) (h2w : 0 < tw2) (h2h : 0 < th2) :
    composeColumns ⟨v, pc, tw, th⟩ imgs = .error .emptyMax ∧
    composeColumns ⟨v2, pc2, tw2, th2⟩ imgs2 = .ok ⟨tw2, th2, []⟩ := by
  have hnone : ∀ x ∈ imgs, x = none := by
    intro x hx
    have := (List.filterMap_eq_nil_iff.mp habs) x hx
    simpa using this
  have hnone2 : ∀ x ∈ imgs2, x = none := by
    intro x hx
    have := (List.filterMap_eq_nil_iff.mp habs2) x hx
    simpa using this
  have hfp := firstPass_all_none (colTargetH ⟨v, pc, tw, th⟩ imgs) imgs hnone
  have hfp2 := firstPass_all_none (colTargetH ⟨v2, pc2, tw2, th2⟩ imgs2) imgs2 hnone2
  have hcond : ¬ (tw > 0 ∧ th > 0) := by omega
  constructor
  · simp [composeColumns, hfp, habs, hcond]
  · simp [composeColumns, hfp2, h2w, h2h, zipPastes_nil]

/-- Witness for C10: one absent slot, declared size 0; two absent slots,
declared size 7 x 9. -/
theorem claim10_witness :
    composeColumns ⟨1, 1, 0, 0⟩ [none] = .error .emptyMax ∧
    composeColumns ⟨1, 2, 7, 9⟩ [none, none] = .ok ⟨7, 9, []⟩ :=
  claim10 1 1 0 0 1 2 7 9 [none] [none, none] rfl rfl (Or.inl rfl)
    (by decide) (by decide)

/-- The ASCII-with-ignore decode of the first four bytes equals "TIM2"
exactly when the first four bytes are the TIM2 magic: dropped (non-ASCII)
bytes shorten the string, so a four-character result forces all four bytes
to be ASCII and verbatim. -/
theorem magicOK_iff (d : Bytes) : magicOK d = true ↔ d.take 4 = magicBytes := by
  unfold magicOK
  rw [beq_iff_eq]
  constructor
  · intro h
    unfold asciiIgnore at h
    have hsub : List.Sublist ((d.take 4).filter (fun b => decide (b < 128))) (d.take 4) :=
      List.filter_sublist _
    have hlf : ((d.take 4).filter (fun b => decide (b < 128))).length = 4 := by
      rw [h]; rfl
    have hle : ((d.take 4).filter (fun b => decide (b < 128))).length ≤ (d.take 4).length :=
      List.length_filter_le _ _
    have ht : (d.take 4).length ≤ 4 := by
      rw [List.length_take]; omega
    have heq : (d.take 4).filter (fun b => decide (b < 128)) = d.take 4 :=
      hsub.eq_of_length (by omega)
    rw [← heq, h]
  · intro h
    unfold asciiIgnore
    rw [h]
    rfl

/-- parseHeader raises the bad-magic ValueError exactly when the magic
check fails; when the magic passes, any failure is a struct.error. -/
theorem parseHeader_badMagic_iff (d : Bytes) :
    parseHeader d = .error .badMagic ↔ magicOK d = false := by
  unfold parseHeader
  by_cases h : magicOK d
  · rw [if_pos h]
    constructor
    · intro hbad
      exfalso
      revert hbad
      cases readU16 d 0x04 <;> cases readU16 d 0x06 <;> cases readU16 d 0x08 <;>
        cases readU16 d 0x0A <;> simp
    · intro hfalse
      rw [h] at hfalse
      cases hfalse
  · rw [if_neg h]
    simp [Bool.not_eq_true] at h
    simp [h]

/-- C8: the chained container parser fails with the bad-magic error, and
the whole TIM2Parser construction fails with it (before any picture header
is read), exactly when the first 4 bytes are not the ASCII literal TIM2;
when they are, no bad-magic error is raised. -/
theorem claim8 (d : Bytes) :
    (parseHeader d = .error .badMagic ↔ ¬ d.take 4 = magicBytes) ∧
    (parseTIM2 d = .error .badMagic ↔ ¬ d.take 4 = magicBytes) := by
  have h1 : parseHeader d = .error .badMagic ↔ ¬ d.take 4 = magicBytes := by
    rw [parseHeader_badMagic_iff]
    rw [← magicOK_iff]
    constructor
    · intro hf ht; rw [ht] at hf; cases hf
    · intro hnt
      cases hm : magicOK d
      · rfl
      · exact absurd hm hnt
  refine ⟨h1, ?_⟩
  unfold parseTIM2
  cases hph : parseHeader d with
  | error e =>
    cases e with
    | badMagic =>
      simpa using h1.mp hph
    | structError =>
      constructor
      · intro hx; cases hx
      · intro hnt
        have := h1.mpr hnt
        rw [hph] at this
        cases this
  | ok h =>
    constructor
    · intro hx; cases hx
    · intro hnt
      have := h1.mpr hnt
      rw [hph] at this
      cases this

/-- C5: in the chained decoder, a picture slot whose format byte is neither
0x00 nor 0x03 decodes to None; a slot whose pixel range
image_offset + width*height*4 runs past the buffer decodes to None; the
result of any slot depends only on that slot of the header list (so every
other picture is unaffected); and the batch is the total function mapping
each slot index to its own extraction, never a hard failure. -/
theorem claim5 (d : Bytes) (hdrs hdrs2 : List (Nat × PictureHeader))
    (i j k : Nat) (o o2 : Nat) (h h2 : PictureHeader)
    (hi : hdrs[i]? = some (o, h))
    (hfmt : h.format ≠ 0x00 ∧ h.format ≠ 0x03)
    (hj : hdrs[j]? = some (o2, h2))
    (hov : h2.image_offset + h2.width * h2.height * 4 > d.length)
    (hk : hdrs[k]? = hdrs2[k]?) :
    extractImage d hdrs i = none ∧
    extractImage d hdrs j = none ∧
    extractImage d hdrs k = extractImage d hdrs2 k ∧
    (extractAllImages d hdrs).length = hdrs.length ∧
    (extractAllImages d hdrs)[k]? =
      if k < hdrs.length then some (extractImage d hdrs k) else none := by
  refine ⟨?_, ?_, ?_, ?_, ?_⟩
  · simp [extractImage, hi, hfmt.1, hfmt.2]
  · by_cases hf : h2.format = 0x00 ∨ h2.format = 0x03
    · simp [extractImage, hj, hf, hov]
    · simp [extractImage, hj, hf]
  · simp only [extractImage, hk]
  · simp [extractAllImages]
  · by_cases hkl : k < hdrs.length
    · rw [extractAllImages, List.getElem?_map, List.getElem?_range hkl,
        if_pos hkl]
      rfl
    · rw [extractAllImages, List.getElem?_map,
        List.getElem?_eq_none (by simpa using Nat.le_of_not_lt hkl),
        if_neg hkl]
      rfl

/-- Witness for C5: slot 0 has format 0x05, slot 1 a 100 x 100 pixel range
against a 4-byte buffer; slot 0 agrees between the list and itself. -/
theorem claim5_witness :
    extractImage c5buf c5hdrs 0 = none ∧
    extractImage c5buf c5hdrs 1 = none ∧
    extractImage c5buf c5hdrs 0 = extractImage c5buf c5hdrs 0 ∧
    (extractAllImages c5buf c5hdrs).length = c5hdrs.length ∧
    (extractAllImages c5buf c5hdrs)[0]? =
      if 0 < c5hdrs.length then some (extractImage c5buf c5hdrs 0) else none :=
  claim5 c5buf c5hdrs c5hdrs 0 1 0 0 1 c5hdrBadFmt c5hdrOverflow rfl
    (by decide) rfl (by decide) rfl

/-- A bounds overflow in the legacy palette loop: as soon as the remaining
iterations would index past the end of palette_data, the loop raises
IndexError (modelled as the error value). -/
theorem buildPaletteGo_err (pd : Bytes) :
    ∀ fuel i, 1 ≤ fuel → pd.length < 4 * (i + fuel) →
      buildPaletteGo pd fuel i = .error .indexError := by
  intro fuel
  induction fuel with
  | zero => intro i h1 _; omega
  | succ fuel ih =>
    intro i _ hlen
    unfold buildPaletteGo
    by_cases hb : pd.length ≤ 4 * i + 3
    · have h3 : pd[4*i+3]? = none := List.getElem?_eq_none (by omega)
      cases hp0 : pd[4*i]? <;> cases hp1 : pd[4*i+1]? <;>
        cases hp2 : pd[4*i+2]? <;> simp [hp0, hp1, hp2, h3]
    · have hlt : 4 * i + 3 < pd.length := by omega
      have h0 : pd[4*i]? = some (pd.getD (4*i) 0) := by
        rw [List.getD_eq_getElem?_getD, List.getElem?_eq_getElem (by omega)]; rfl
      have h1 : pd[4*i+1]? = some (pd.getD (4*i+1) 0) := by
        rw [List.getD_eq_getElem?_getD, List.getElem?_eq_getElem (by omega)]; rfl
      have h2 : pd[4*i+2]? = some (pd.getD (4*i+2) 0) := by
        rw [List.getD_eq_getElem?_getD, List.getElem?_eq_getElem (by omega)]; rfl
      have h3 : pd[4*i+3]? = some (pd.getD (4*i+3) 0) := by
        rw [List.getD_eq_getElem?_getD, List.getElem?_eq_getElem (by omega)]; rfl
      rw [h0, h1, h2, h3]
      rw [ih (i+1) (by omega) (by omega)]

/-- When every palette index stays inside palette_data, the legacy palette
loop finishes without an exception. -/
theorem buildPaletteGo_ok (pd : Bytes) :
    ∀ fuel i, 4 * (i + fuel) ≤ pd.length →
      ∃ l, buildPaletteGo pd fuel i = .ok l := by
  intro fuel
  induction fuel with
  | zero => intro i _; exact ⟨[], rfl⟩
  | succ fuel ih =>
    intro i hlen
    unfold buildPaletteGo
    have h0 : pd[4*i]? = some (pd.getD (4*i) 0) := by
      rw [List.getD_eq_getElem?_getD, List.getElem?_eq_getElem (by omega)]; rfl
    have h1 : pd[4*i+1]? = some (pd.getD (4*i+1) 0) := by
      rw [List.getD_eq_getElem?_getD, List.getElem?_eq_getElem (by omega)]; rfl
    have h2 : pd[4*i+2]? = some (pd.getD (4*i+2) 0) := by
      rw [List.getD_eq_getElem?_getD, List.getElem?_eq_getElem (by omega)]; rfl
    have h3 : pd[4*i+3]? = some (pd.getD (4*i+3) 0) := by
      rw [List.getD_eq_getElem?_getD, List.getElem?_eq_getElem (by omega)]; rfl
    rw [h0, h1, h2, h3]
    obtain ⟨l, hl⟩ := ih (i+1) (by omega)
    rw [hl]
    exact ⟨_, rfl⟩

/-- C3 counterexample: a 0x40-byte legacy file (large enough to pass the
size gate) whose palette count field demands 16 entries while no palette
bytes exist.  The decode raises IndexError: the exception escapes the
per-picture decode instead of skipping the picture. -/
theorem claim3_counterexample :
    processTm2 c3buf = .error .indexError ∧ 0x40 ≤ c3buf.length := by
  refine ⟨by decide, by decide⟩

/-- C3 amended: in the legacy decoder, whenever the derived palette range
(0x40 + pixel_data_size + 4 * palette_count with a nonzero count) reaches
past the end of the buffer, the decode of that file raises IndexError: the
exception escapes process_tm2_file (the per-file batch driver catches it),
rather than the picture being skipped with a benign result. -/
theorem claim3_amended (d : Bytes) (h0 : 0x40 ≤ d.length)
    (hc : 1 ≤ le16 d 0x1E)
    (hov : d.length < 0x40 + le32 d 0x18 + 4 * le16 d 0x1E) :
    processTm2 d = .error .indexError := by
  have hpd : (legacyPaletteData d).length = d.length - (0x40 + le32 d 0x18) := by
    simp [legacyPaletteData]
  have herr : legacyPalette d = .error .indexError := by
    unfold legacyPalette buildPalette
    rw [buildPaletteGo_err (legacyPaletteData d) (le16 d 0x1E) 0 hc (by omega)]
  simp [processTm2, herr, Nat.not_lt.mpr h0]

/-- Witness for the amended C3 at the concrete 0x40-byte buffer. -/
theorem claim3_amended_witness : processTm2 c3buf = .error .indexError :=
  claim3_amended c3buf (by decide) (by decide) (by decide)

/-- C9: a legacy file of at least 0x40 bytes whose palette entry count is
none of 0, 16, 256 (and whose palette bytes all fit in the buffer) is
still decoded and written: no pixel branch runs, so the width x height
image keeps its initial fully transparent (0,0,0,0) pixels, and the
decoder neither fails nor emits an unsupported-format skip. -/
theorem claim9 (d : Bytes) (h0 : 0x40 ≤ d.length)
    (hc1 : le16 d 0x1E ≠ 0) (hc2 : le16 d 0x1E ≠ 16) (hc3 : le16 d 0x1E ≠ 256)
    (hpal : 0x40 + le32 d 0x18 + 4 * le16 d 0x1E ≤ d.length) :
    processTm2 d = .ok (.written ⟨le16 d 0x24, le16 d 0x26,
      List.replicate (le16 d 0x24 * le16 d 0x26) rgba0⟩) := by
  have hpd : (legacyPaletteData d).length = d.length - (0x40 + le32 d 0x18) := by
    simp [legacyPaletteData]
  obtain ⟨pal, hpalok⟩ :=
    buildPaletteGo_ok (legacyPaletteData d) (le16 d 0x1E) 0 (by omega)
  have hlp : legacyPalette d = .ok pal := by
    unfold legacyPalette buildPalette
    rw [hpalok]
    simp [hc3]
  have hfp : finalPixels (le16 d 0x24) (le16 d 0x26) [] =
      List.replicate (le16 d 0x24 * le16 d 0x26) rgba0 := by
    unfold finalPixels
    have : (fun k => ([] : List RGBA).getD k rgba0) = fun _ => rgba0 := by
      funext k
      rw [List.getD_eq_getElem?_getD]
      rfl
    rw [this, List.map_const', List.length_range]
  simp [processTm2, Nat.not_lt.mpr h0, hlp, hc1, hc2, hc3, hfp]

/-- Witness for C9: a 0x48-byte file with palette count 2, width 1,
height 1; the output is one transparent pixel. -/
theorem claim9_witness :
    processTm2 c9buf = .ok (.written ⟨le16 c9buf 0x24, le16 c9buf 0x26,
      List.replicate (le16 c9buf 0x24 * le16 c9buf 0x26) rgba0⟩) :=
  claim9 c9buf (by decide) (by decide) (by decide) (by decide) (by decide)

/-- Every header entry produced by the chained header scan is within
bounds and is the parse of the buffer at its own offset. -/
theorem findGo_entry (d : Bytes) :
    ∀ (n o i oi : Nat) (hi : PictureHeader),
      (findPictureHeadersGo d n o)[i]? = some (oi, hi) →
      oi + 0x28 ≤ d.length ∧ hi = parsePictureHeaderAt d oi := by
  intro n
  induction n with
  | zero =>
    intro o i oi hi h
    rw [show findPictureHeadersGo d 0 o = [] from rfl] at h
    simp at h
  | succ n ih =>
    intro o i oi hi h
    unfold findPictureHeadersGo at h
    by_cases hb : o + 0x28 > d.length
    · rw [if_pos hb] at h
      simp at h
    · rw [if_neg hb] at h
      cases i with
      | zero =>
        simp at h
        obtain ⟨h1, h2⟩ := h
        subst h1
        subst h2
        exact ⟨Nat.le_of_not_lt hb, rfl⟩
      | succ i =>
        simp only [List.getElem?_cons_succ] at h
        exact ih _ i oi hi h

/-- The first header the scan yields sits at the scan start offset. -/
theorem findGo_head (d : Bytes) :
    ∀ (n o : Nat) (x : Nat × PictureHeader),
      (findPictureHeadersGo d n o)[0]? = some x → x.1 = o := by
  intro n
  cases n with
  | zero =>
    intro o x h
    rw [show findPictureHeadersGo d 0 o = [] from rfl] at h
    simp at h
  | succ n =>
    intro o x h
    unfold findPictureHeadersGo at h
    by_cases hb : o + 0x28 > d.length
    · rw [if_pos hb] at h; simp at h
    · rw [if_neg hb] at h
      simp at h
      subst h
      rfl

/-- Consecutive headers are chained by the total_size field, never by a
fixed stride. -/
theorem findGo_chain (d : Bytes) :
    ∀ (n o i oi : Nat) (hi : PictureHeader) (oj : Nat) (hj : PictureHeader),
      (findPictureHeadersGo d n o)[i]? = some (oi, hi) →
      (findPictureHeadersGo d n o)[i+1]? = some (oj, hj) →
      oj = oi + hi.total_size := by
  intro n
  induction n with
  | zero =>
    intro o i oi hi oj hj h _
    rw [show findPictureHeadersGo d 0 o = [] from rfl] at h
    simp at h
  | succ n ih =>
    intro o i oi hi oj hj h h2
    unfold findPictureHeadersGo at h h2
    by_cases hb : o + 0x28 > d.length
    · rw [if_pos hb] at h; simp at h
    · rw [if_neg hb] at h
      rw [if_neg hb] at h2
      cases i with
      | zero =>
        simp at h
        obtain ⟨ho, hh⟩ := h
        subst ho
        subst hh
        simp only [List.getElem?_cons_succ] at h2
        have := findGo_head d n (o + (parsePictureHeaderAt d o).total_size) _ h2
        simpa using this
      | succ i =>
        simp only [List.getElem?_cons_succ] at h h2
        exact ih _ i oi hi oj hj h h2

/-- The scan yields at most picture_count headers. -/
theorem findGo_len (d : Bytes) :
    ∀ n o, (findPictureHeadersGo d n o).length ≤ n := by
  intro n
  induction n with
  | zero => intro o; simp [findPictureHeadersGo]
  | succ n ih =>
    intro o
    unfold findPictureHeadersGo
    by_cases hb : o + 0x28 > d.length
    · rw [if_pos hb]; simp
    · rw [if_neg hb]
      simpa using ih (o + (parsePictureHeaderAt d o).total_size)

/-- When the scan stops early, it is because fewer than 0x28 bytes remain
past the offset where the next header would start. -/
theorem findGo_stop (d : Bytes) :
    ∀ n o, (findPictureHeadersGo d n o).length < n →
      chainNext o (findPictureHeadersGo d n o) + 0x28 > d.length := by
  intro n
  induction n with
  | zero => intro o h; omega
  | succ n ih =>
    intro o h
    unfold findPictureHeadersGo at h ⊢
    by_cases hb : o + 0x28 > d.length
    · rw [if_pos hb] at h ⊢
      simpa [chainNext] using hb
    · rw [if_neg hb] at h ⊢
      simp only [List.length_cons, Nat.add_lt_add_iff_right] at h
      have := ih (o + (parsePictureHeaderAt d o).total_size) h
      simpa [chainNext] using this

/-- C6: chained picture headers are parsed with a stored header size of 0
treated as 0x80, image_offset = offset + header_size, palette_offset =
image_offset + pixel byte size; the first header sits at 0x80, successive
header offsets accumulate by each total_size field (no fixed stride), at
most picture_count headers are produced, every produced header is within
bounds, and the scan stops early exactly because fewer than 0x28 bytes
remain past the offset of the next header. -/
theorem claim6 (d : Bytes) (o count i oi : Nat) (hi : PictureHeader)
    (oj : Nat) (hj : PictureHeader)
    (h0 : le16 d (o + 0x0C) = 0)
    (hgi : (findPictureHeaders d count)[i]? = some (oi, hi))
    (hgj : (findPictureHeaders d count)[i+1]? = some (oj, hj))
    (hcut : (findPictureHeaders d count).length < count)
    (hcnt : 1 ≤ count) (hfit : 0x80 + 0x28 ≤ d.length) :
    (parsePictureHeaderAt d o).header_size = 0x80 ∧
    (∀ o2 : Nat, le16 d (o2 + 0x0C) ≠ 0 →
      (parsePictureHeaderAt d o2).header_size = le16 d (o2 + 0x0C)) ∧
    (∀ o2 : Nat, (parsePictureHeaderAt d o2).image_offset =
      o2 + (parsePictureHeaderAt d o2).header_size) ∧
    (∀ o2 : Nat, (parsePictureHeaderAt d o2).palette_offset =
      (parsePictureHeaderAt d o2).image_offset +
        (parsePictureHeaderAt d o2).image_size_b) ∧
    oi + 0x28 ≤ d.length ∧ hi = parsePictureHeaderAt d oi ∧
    oj = oi + hi.total_size ∧
    (findPictureHeaders d count)[0]? = some (0x80, parsePictureHeaderAt d 0x80) ∧
    (findPictureHeaders d count).length ≤ count ∧
    chainNext 0x80 (findPictureHeaders d count) + 0x28 > d.length := by
  obtain ⟨hin, hparse⟩ := findGo_entry d count 0x80 i oi hi hgi
  refine ⟨?_, ?_, ?_, ?_, hin, hparse, ?_, ?_, findGo_len d count 0x80, ?_⟩
  · simp [parsePictureHeaderAt, h0]
  · intro o2 hz
    simp [parsePictureHeaderAt, hz]
  · intro o2; rfl
  · intro o2; rfl
  · exact findGo_chain d count 0x80 i oi hi oj hj hgi hgj
  · cases count with
    | zero => omega
    | succ n =>
      unfold findPictureHeaders findPictureHeadersGo
      rw [if_neg (by omega)]
      simp
  · exact findGo_stop d count 0x80 hcut

set_option maxRecDepth 4000 in
/-- Witness for C6 on a 0xD0-byte container: two 0x28-byte picture blocks
at 0x80 and 0xA8, a requested third header does not fit. -/
theorem claim6_witness :
    (parsePictureHeaderAt c6buf 0).header_size = 0x80 ∧
    (∀ o2 : Nat, le16 c6buf (o2 + 0x0C) ≠ 0 →
      (parsePictureHeaderAt c6buf o2).header_size = le16 c6buf (o2 + 0x0C)) ∧
    (∀ o2 : Nat, (parsePictureHeaderAt c6buf o2).image_offset =
      o2 + (parsePictureHeaderAt c6buf o2).header_size) ∧
    (∀ o2 : Nat, (parsePictureHeaderAt c6buf o2).palette_offset =
      (parsePictureHeaderAt c6buf o2).image_offset +
        (parsePictureHeaderAt c6buf o2).image_size_b) ∧
    0x80 + 0x28 ≤ c6buf.length ∧
    parsePictureHeaderAt c6buf 0x80 = parsePictureHeaderAt c6buf 0x80 ∧
    0xA8 = 0x80 + (parsePictureHeaderAt c6buf 0x80).total_size ∧
    (findPictureHeaders c6buf 3)[0]? =
      some (0x80, parsePictureHeaderAt c6buf 0x80) ∧
    (findPictureHeaders c6buf 3).length ≤ 3 ∧
    chainNext 0x80 (findPictureHeaders c6buf 3) + 0x28 > c6buf.length :=
  claim6 c6buf 0 3 0 0x80 (parsePictureHeaderAt c6buf 0x80) 0xA8
    (parsePictureHeaderAt c6buf 0xA8) (by decide) (by decide) (by decide)
    (by decide) (by decide) (by decide)

/-- Nibble bound: any byte masked with 0xF indexes a 16-entry palette. -/
theorem nibble_lt_16 (x : Nat) : x &&& 0xF < 16 := by
  have h := Nat.and_lt_two_pow x (show 0xF < 2 ^ 4 by decide)
  norm_num at h
  exact h

/-- Indexing with a checked bound returns the default-access value. -/
theorem getElem?_eq_some_getD {α : Type} (l : List α) (n : Nat) (d : α)
    (h : n < l.length) : l[n]? = some (l.getD n d) := by
  rw [List.getElem?_eq_getElem h, List.getD_eq_getElem?_getD,
    List.getElem?_eq_getElem h]
  rfl

/-- The 8-bit pixel loop, started at index i: when the break index limit is
within both the loop bound and the pixel buffer and every referenced index
byte is inside the palette, the loop emits exactly the pixels
palette[pixels[t]] for t in [i, limit). -/
theorem decode8Go_spec (pixels : Bytes) (palette : List RGBA) (limit : Nat) :
    ∀ (fuel i : Nat), limit ≤ i + fuel → i ≤ limit → limit ≤ pixels.length →
      (∀ t, i ≤ t → t < limit → pixels.getD t 0 < palette.length) →
      decode8Go pixels palette limit fuel i =
        .ok ((List.range (limit - i)).map
          (fun t => palette.getD (pixels.getD (i+t) 0) rgba0)) := by
  intro fuel
  induction fuel with
  | zero =>
    intro i h1 h2 _ _
    have he : i = limit := by omega
    subst he
    simp [decode8Go]
  | succ fuel ih =>
    intro i h1 h2 h3 h4
    unfold decode8Go
    by_cases he : i = limit
    · subst he
      simp
    · rw [if_neg he]
      have hil : i < limit := by omega
      have hpi : pixels[i]? = some (pixels.getD i 0) :=
        getElem?_eq_some_getD pixels i 0 (by omega)
      have hc : pixels.getD i 0 < palette.length := h4 i le_rfl hil
      have hpc : palette[pixels.getD i 0]? =
          some (palette.getD (pixels.getD i 0) rgba0) :=
        getElem?_eq_some_getD palette _ rgba0 hc
      simp only [hpi, hpc,
        ih (i+1) (by omega) (by omega) h3 (fun t _ ht2 => h4 t (by omega) ht2)]
      have hsub : limit - i = (limit - (i+1)) + 1 := by omega
      rw [hsub, List.range_succ_eq_map, List.map_cons, List.map_map]
      have harg : ∀ t : Nat, i + Nat.succ t = (i+1) + t := by intro t; omega
      refine congrArg Except.ok ?_
      refine congrArg₂ List.cons (by rw [Nat.add_zero]) ?_
      refine List.map_congr_left ?_
      intro t _
      simp only [Function.comp]
      rw [harg t]

/-- The 4-bit pixel loop, started at index i: when the break index limit is
within both the loop bound and the pixel buffer and the palette has 16
entries, each byte emits its low nibble pixel then its high nibble pixel. -/
theorem decode4Go_spec (pixels : Bytes) (palette : List RGBA) (limit : Nat)
    (hpal : palette.length = 16) :
    ∀ (fuel i : Nat), limit ≤ i + fuel → i ≤ limit → limit ≤ pixels.length →
      decode4Go pixels palette limit fuel i =
        .ok (((List.range (limit - i)).map
          (fun t => [palette.getD (pixels.getD (i+t) 0 &&& 0xF) rgba0,
            palette.getD ((pixels.getD (i+t) 0 >>> 4) &&& 0xF) rgba0])).flatten) := by
  intro fuel
  induction fuel with
  | zero =>
    intro i h1 h2 _
    have he : i = limit := by omega
    subst he
    simp [decode4Go]
  | succ fuel ih =>
    intro i h1 h2 h3
    unfold decode4Go
    by_cases he : i = limit
    · subst he
      simp
    · rw [if_neg he]
      have hil : i < limit := by omega
      have hpi : pixels[i]? = some (pixels.getD i 0) :=
        getElem?_eq_some_getD pixels i 0 (by omega)
      have hlo : palette[pixels.getD i 0 &&& 0xF]? =
          some (palette.getD (pixels.getD i 0 &&& 0xF) rgba0) :=
        getElem?_eq_some_getD palette _ rgba0 (by rw [hpal]; exact nibble_lt_16 _)
      have hhi : palette[(pixels.getD i 0 >>> 4) &&& 0xF]? =
          some (palette.getD ((pixels.getD i 0 >>> 4) &&& 0xF) rgba0) :=
        getElem?_eq_some_getD palette _ rgba0 (by rw [hpal]; exact nibble_lt_16 _)
      simp only [hpi, hlo, hhi, ih (i+1) (by omega) (by omega) h3]
      have hsub : limit - i = (limit - (i+1)) + 1 := by omega
      rw [hsub, List.range_succ_eq_map, List.map_cons, List.map_map,
        List.flatten_cons, List.cons_append, List.cons_append, List.nil_append]
      have harg : ∀ t : Nat, i + Nat.succ t = (i+1) + t := by intro t; omega
      refine congrArg Except.ok ?_
      rw [Nat.add_zero]
      refine congrArg₂ List.cons rfl (congrArg₂ List.cons rfl ?_)
      refine congrArg List.flatten (List.map_congr_left ?_)
      intro t _
      simp only [Function.comp]
      rw [harg t]

/-- C7: the legacy 8-bit decode emits exactly width*height pixels (limit),
pixel t being palette[pixels[t]], even when more index bytes exist
(pds can exceed limit); the 4-bit decode emits two pixels per byte, low
nibble first, exactly 2*(width*height/2) pixels from width*height/2 bytes;
in particular the byte 0x21 against the marker palette P0..P15 yields
pixel0 = P1 and pixel1 = P2. -/
theorem claim7 (pixels : Bytes) (palette : List RGBA) (pds limit : Nat)
    (h1 : limit ≤ pds) (h2 : limit ≤ pixels.length)
    (h3 : ∀ t, t < limit → pixels.getD t 0 < palette.length)
    (pixels4 : Bytes) (pal16 : List RGBA) (pds4 limit4 : Nat)
    (h4 : limit4 ≤ pds4) (h5 : limit4 ≤ pixels4.length)
    (h6 : pal16.length = 16) :
    decode8 pixels palette pds limit =
      .ok ((List.range limit).map (fun t => palette.getD (pixels.getD t 0) rgba0)) ∧
    (∀ l, decode8 pixels palette pds limit = .ok l → l.length = limit) ∧
    decode4 pixels4 pal16 pds4 limit4 =
      .ok (((List.range limit4).map
        (fun t => [pal16.getD (pixels4.getD t 0 &&& 0xF) rgba0,
          pal16.getD ((pixels4.getD t 0 >>> 4) &&& 0xF) rgba0])).flatten) ∧
    (∀ l, decode4 pixels4 pal16 pds4 limit4 = .ok l → l.length = 2 * limit4) ∧
    decode4 [0x21] demoPal16 1 1 = .ok [⟨1, 0, 0, 0⟩, ⟨2, 0, 0, 0⟩] := by
  have hd8 : decode8 pixels palette pds limit =
      .ok ((List.range limit).map (fun t => palette.getD (pixels.getD t 0) rgba0)) := by
    unfold decode8
    rw [decode8Go_spec pixels palette limit pds 0 (by omega) (by omega) h2
      (fun t _ ht => h3 t ht)]
    simp
  have hd4 : decode4 pixels4 pal16 pds4 limit4 =
      .ok (((List.range limit4).map
        (fun t => [pal16.getD (pixels4.getD t 0 &&& 0xF) rgba0,
          pal16.getD ((pixels4.getD t 0 >>> 4) &&& 0xF) rgba0])).flatten) := by
    unfold decode4
    rw [decode4Go_spec pixels4 pal16 limit4 h6 pds4 0 (by omega) (by omega) h5]
    simp
  refine ⟨hd8, ?_, hd4, ?_, by decide⟩
  · intro l hl
    rw [hd8] at hl
    cases hl
    simp
  · intro l hl
    rw [hd4] at hl
    cases hl
    rw [List.length_flatten]
    rw [List.map_map]
    have : (List.length ∘ fun t =>
        [pal16.getD (pixels4.getD t 0 &&& 0xF) rgba0,
         pal16.getD ((pixels4.getD t 0 >>> 4) &&& 0xF) rgba0]) = fun _ => 2 := by
      funext t
      rfl
    rw [this, List.map_const', List.length_range, List.sum_replicate, smul_eq_mul]
    omega

/-- Witness for C7: an 8-bit 2 x 1 image from bytes [0, 1] against the
16-marker palette, and the 4-bit single byte 0x21 example. -/
theorem claim7_witness :
    decode8 [0, 1] demoPal16 2 2 =
      .ok ((List.range 2).map (fun t => demoPal16.getD (([0, 1] : Bytes).getD t 0) rgba0)) ∧
    (∀ l, decode8 [0, 1] demoPal16 2 2 = .ok l → l.length = 2) ∧
    decode4 [0x21] demoPal16 1 1 =
      .ok (((List.range 1).map
        (fun t => [demoPal16.getD (([0x21] : Bytes).getD t 0 &&& 0xF) rgba0,
          demoPal16.getD ((([0x21] : Bytes).getD t 0 >>> 4) &&& 0xF) rgba0])).flatten) ∧
    (∀ l, decode4 [0x21] demoPal16 1 1 = .ok l → l.length = 2 * 1) ∧
    decode4 [0x21] demoPal16 1 1 = .ok [⟨1, 0, 0, 0⟩, ⟨2, 0, 0, 0⟩] :=
  claim7 [0, 1] demoPal16 2 2 (by decide) (by decide) (by decide)
    [0x21] demoPal16 1 1 (by decide) (by decide) (by decide)

/-- Mapping a function over a palette commutes with the group reorder. -/
theorem reorderGroup_map {α β : Type} (f : α → β) (l : List α) :
    reorderGroup (l.map f) = (reorderGroup l).map f := by
  simp [reorderGroup, List.map_append, List.map_take, List.map_drop]

/-- Mapping a function over a palette commutes with the full reorder. -/
theorem reorder256_map {α β : Type} (f : α → β) (l : List α) :
    reorder256 (l.map f) = (reorder256 l).map f := by
  unfold reorder256
  rw [List.map_flatten, List.map_map]
  refine congrArg List.flatten (List.map_congr_left ?_)
  intro gi _
  simp only [Function.comp]
  rw [← List.map_drop, ← List.map_take, reorderGroup_map]

/-- A list is recovered by reading each index of the range of its length. -/
theorem range_map_getD {α : Type} (p : List α) (d0 : α) :
    (List.range p.length).map (fun i => p.getD i d0) = p := by
  apply List.ext_getElem?
  intro n
  rw [List.getElem?_map]
  by_cases hn : n < p.length
  · rw [List.getElem?_range hn, getElem?_eq_some_getD p n d0 hn]
    rfl
  · rw [List.getElem?_eq_none
      (show (List.range p.length).length ≤ n by
        simpa using Nat.le_of_not_lt hn),
      List.getElem?_eq_none (Nat.le_of_not_lt hn)]
    rfl

set_option maxRecDepth 8000 in
/-- The code-side reorder of the index list 0..255 is exactly the spec-side
swizzle permutation. -/
theorem reorder256_range :
    reorder256 (List.range 256) = (List.range 256).map swizzleIndex := by
  rfl

/-- C4: for every 256-entry palette, the legacy reorder places at output
index k the original entry swizzleIndex k (eight groups of 32 kept in
order; inside each group the middle two 8-entry sub-groups exchanged,
sub-groups internally untouched); for any other entry count the legacy
palette is passed through unmodified (16-entry palettes and direct-color
included); and the chained decoder applies no palette at all: every
decoded picture is read directly from the pixel bytes. -/
theorem claim4 (p : List RGBA) (hp : p.length = 256) (k : Nat) (hk : k < 256)
    (d : Bytes) (hcont : le16 d 0x1E ≠ 256)
    (d2 : Bytes) (hdrs : List (Nat × PictureHeader)) (i : Nat) (img : EvaImage)
    (hx : extractImage d2 hdrs i = some img) :
    (reorder256 p)[k]? = some (p.getD (swizzleIndex k) rgba0) ∧
    legacyPalette d = buildPalette (legacyPaletteData d) (le16 d 0x1E) ∧
    (∃ o h, hdrs[i]? = some (o, h) ∧ img.width = h.width ∧
      img.height = h.height ∧
      img.pixels = (List.range (h.width * h.height)).map
        (directPixel ((d2.drop h.image_offset).take (h.width * h.height * 4)))) := by
  refine ⟨?_, ?_, ?_⟩
  · have hrange : (List.range 256).map (fun i => p.getD i rgba0) = p := by
      have h := range_map_getD p rgba0
      rw [hp] at h
      exact h
    calc (reorder256 p)[k]?
        = (reorder256 ((List.range 256).map (fun i => p.getD i rgba0)))[k]? := by
          rw [hrange]
      _ = ((reorder256 (List.range 256)).map (fun i => p.getD i rgba0))[k]? := by
          rw [reorder256_map]
      _ = (((List.range 256).map swizzleIndex).map (fun i => p.getD i rgba0))[k]? := by
          rw [reorder256_range]
      _ = some (p.getD (swizzleIndex k) rgba0) := by
          rw [List.map_map, List.getElem?_map, List.getElem?_range hk]
          rfl
  · unfold legacyPalette
    cases hb : buildPalette (legacyPaletteData d) (le16 d 0x1E) with
    | ok l => simp [hcont]
    | error e => simp
  · unfold extractImage at hx
    cases hhd : hdrs[i]? with
    | none => simp [hhd] at hx
    | some oh =>
      obtain ⟨o, h⟩ := oh
      simp only [hhd] at hx
      by_cases hf : h.format = 0x00 ∨ h.format = 0x03
      · rw [if_pos hf] at hx
        by_cases hov : h.image_offset + h.width * h.height * 4 > d2.length
        · rw [if_pos hov] at hx
          cases hx
        · rw [if_neg hov] at hx
          have himg := Option.some.inj hx
          refine ⟨o, h, rfl, ?_, ?_, ?_⟩ <;> rw [← himg]
      · rw [if_neg hf] at hx
        cases hx

set_option maxRecDepth 8000 in
/-- Witness for C4: the 256 marker palette at output index 9 (which holds
original entry 17), a legacy buffer with palette count 0, and a chained
1 x 1 format-0 picture decoded directly from bytes [1,2,3,4]. -/
theorem claim4_witness :
    (reorder256 demoPal256)[9]? = some (demoPal256.getD (swizzleIndex 9) rgba0) ∧
    legacyPalette c4legacyBuf =
      buildPalette (legacyPaletteData c4legacyBuf) (le16 c4legacyBuf 0x1E) ∧
    (∃ o h, ([(0, c4hdr)] : List (Nat × PictureHeader))[0]? = some (o, h) ∧
      c4img.width = h.width ∧ c4img.height = h.height ∧
      c4img.pixels = (List.range (h.width * h.height)).map
        (directPixel ((([1, 2, 3, 4] : Bytes).drop h.image_offset).take
          (h.width * h.height * 4)))) :=
  claim4 demoPal256 (by decide) 9 (by decide) c4legacyBuf (by decide)
    [1, 2, 3, 4] [(0, c4hdr)] 0 c4img (by decide)

end Tim2
